import Mathlib

/-!
Shallow embedding of the Job Execution Queue of monitor-server
(`utils/executor.js`): the admission queue (`enqueue` / `processQueue`),
the process runner (`runScript`) with its per-basename running set,
per-script timeout table, output capture and settlement paths.

Machine state is modelled explicitly; the asynchronous behaviour of the
JavaScript event loop is modelled as a step relation on states driven by
events (submissions, job completions, child-process stream/timer/exit
events), each step being the synchronous code the corresponding handler
runs in the source.
-/

namespace MonitorServer

/-! ### Path helpers (`path.basename`, `path.extname` as used by executor.js) -/

/-- Collects the last `/`-separated segment of a character list: the
accumulator holds the current segment reversed and is reset at each slash.
Embeds Node `path.basename` (posix) applied after trailing-slash stripping. -/
def lastSegment : List Char → List Char → List Char
  | acc, [] => acc.reverse
  | _, '/' :: cs => lastSegment [] cs
  | acc, c :: cs => lastSegment (c :: acc) cs

/-- Node `path.basename` ignores trailing separators. -/
def dropTrailingSlashes (l : List Char) : List Char :=
  (l.reverse.dropWhile (fun c => c = '/')).reverse

/-- Embeds `path.basename(p)`: the last portion of the path, trailing slashes ignored. -/
def basename (p : String) : String :=
  ⟨lastSegment [] (dropTrailingSlashes p.data)⟩

/-- The suffix of the list starting at its last dot, if any. -/
def lastDotSuffix : List Char → Option (List Char)
  | [] => none
  | c :: cs =>
    match lastDotSuffix cs with
    | some s => some s
    | none => if c = '.' then some (c :: cs) else none

/-- Embeds `path.extname(p)`: from the last dot of the basename to the end; empty
when the basename has no dot, or its only dot is its leading character. -/
def extname (p : String) : String :=
  match (basename p).data with
  | [] => ""
  | _ :: cs =>
    match lastDotSuffix cs with
    | some s => ⟨s⟩
    | none => ""

/-- JS `String.prototype.toLowerCase` on ASCII contents. -/
def lowerCase (s : String) : String :=
  ⟨s.data.map Char.toLower⟩

/-! ### Executor configuration (utils/executor.js, top of file) -/

/-- Source: `const MAX_CONCURRENT = 1;` -/
def MAX_CONCURRENT : Nat := 1

/-- Source: `const MAX_QUEUE_SIZE = 20;` -/
def MAX_QUEUE_SIZE : Nat := 20

/-- The two queue limits bundled, so the theorems cover both the shipped
values and the configurable variants the spec describes. -/
structure QueueConfig where
  maxConcurrent : Nat
  maxQueueSize : Nat
deriving DecidableEq, Repr

/-- The shipped configuration of executor.js. -/
def defaultConfig : QueueConfig := ⟨MAX_CONCURRENT, MAX_QUEUE_SIZE⟩

/-- Source: `const TIMEOUTS = { 'airliquide.py': 3*60*1000, 'nipongases.py': 3*60*1000,
'airliquide_portugal.py': 1*60*1000 };` -/
def TIMEOUTS : String → Option Nat := fun name =>
  if name = "airliquide.py" then some (3 * 60 * 1000)
  else if name = "nipongases.py" then some (3 * 60 * 1000)
  else if name = "airliquide_portugal.py" then some (1 * 60 * 1000)
  else none

/-- Source: `const timeout = TIMEOUTS[scriptName] || 3 * 60 * 1000;` — a missing
entry (and a zero entry, which is falsy in JS) falls back to the default. -/
def timeoutFor (name : String) : Nat :=
  match TIMEOUTS name with
  | some t => if t = 0 then 3 * 60 * 1000 else t
  | none => 3 * 60 * 1000

/-! ### Admission queue (`enqueue` / `processQueue`)

Units of work are identified by natural numbers in submission order; the
behaviour map `throws` records, for each unit, whether invoking its job
function raises synchronously instead of returning a promise (the source
never guards against that).  `running`, `pending` mirror the mutable
`running` counter and `queue` array; `executing` is the (ghost) multiset of
units whose promise is live with the `.finally` handler attached;
`startedTrace` is the (ghost) list of units in the order their job function
was invoked. -/

structure QueueState where
  running : Nat
  pending : List Nat
  executing : List Nat
  startedTrace : List Nat
deriving DecidableEq, Repr

/-- State at module load: `let running = 0; const queue = [];`. -/
def initialQueue : QueueState := ⟨0, [], [], []⟩

/-- Embeds `processQueue()` from executor.js:
```
function processQueue() {
    if (running >= MAX_CONCURRENT) return;
    const jobFunc = queue.shift();
    if (!jobFunc) return;
    running++;
    jobFunc().finally(() => { running--; processQueue(); });
}
```
Returns the state after the call together with a flag telling whether an
exception escaped the call (which happens exactly when the dequeued job
function raises synchronously: `running` has already been incremented and
no `.finally` handler ever gets attached). -/
def processQueue (cfg : QueueConfig) (throws : Nat → Bool) (s : QueueState) :
    QueueState × Bool :=
  if cfg.maxConcurrent ≤ s.running then (s, false)
  else
    match s.pending with
    | [] => (s, false)
    | j :: rest =>
      if throws j then
        (⟨s.running + 1, rest, s.executing, s.startedTrace ++ [j]⟩, true)
      else
        (⟨s.running + 1, rest, s.executing ++ [j], s.startedTrace ++ [j]⟩, false)

/-- Embeds `enqueue(jobFunc)` from executor.js:
```
function enqueue(jobFunc) {
    if (queue.length >= MAX_QUEUE_SIZE) return false;
    queue.push(jobFunc);
    processQueue();
    return true;
}
```
`Except.ok b` is a normal return of `b`; `Except.error ()` means the
synchronous exception out of `processQueue` pre-empted `return true`. -/
def enqueue (cfg : QueueConfig) (throws : Nat → Bool) (j : Nat) (s : QueueState) :
    Except Unit Bool × QueueState :=
  if cfg.maxQueueSize ≤ s.pending.length then (.ok false, s)
  else
    let r := processQueue cfg throws ⟨s.running, s.pending ++ [j], s.executing, s.startedTrace⟩
    (if r.2 then .error () else .ok true, r.1)

/-- The `.finally` handler of a started unit `j`, run when its promise
settles: `running--; processQueue();`.  `ok` records whether the promise
fulfilled or rejected; the handler is attached with `.finally`, so it is
the same code either way.  The escape flag of the inner `processQueue`
surfaces as an unhandled rejection of the handler. -/
def completeJob (cfg : QueueConfig) (throws : Nat → Bool) (j : Nat) (_ok : Bool)
    (s : QueueState) : QueueState × Bool :=
  processQueue cfg throws ⟨s.running - 1, s.pending, s.executing.erase j, s.startedTrace⟩

/-- Events the event loop can deliver to the queue: a collaborator calls
`enqueue`, or the promise of a started unit settles (`ok` = fulfilled). -/
inductive QEvent
  | submit (j : Nat)
  | complete (j : Nat) (ok : Bool)
deriving DecidableEq, Repr

/-- One event-loop turn of the queue.  A completion can only be delivered
for a unit whose `.finally` handler is attached. -/
def stepEv (cfg : QueueConfig) (throws : Nat → Bool) (s : QueueState) :
    QEvent → QueueState × Bool
  | .submit j =>
    let r := enqueue cfg throws j s
    (r.2, match r.1 with | .error _ => true | .ok _ => false)
  | .complete j ok =>
    if j ∈ s.executing then completeJob cfg throws j ok s else (s, false)

/-- Runs a list of events from a state. -/
def runTrace (cfg : QueueConfig) (throws : Nat → Bool) (s : QueueState) :
    List QEvent → QueueState
  | [] => s
  | e :: es => runTrace cfg throws (stepEv cfg throws s e).1 es

/-- The identifiers submitted along a trace, in order. -/
def submittedIds : List QEvent → List Nat
  | [] => []
  | .submit j :: es => j :: submittedIds es
  | .complete _ _ :: es => submittedIds es

/-- An event finds room: a submission sees the pending queue strictly
below capacity (completions always do). -/
def submitOk (cfg : QueueConfig) (s : QueueState) : QEvent → Bool
  | .submit _ => decide (s.pending.length < cfg.maxQueueSize)
  | .complete _ _ => true

/-- Along this trace, every submission finds the pending queue strictly
below capacity (so every submission is accepted). -/
def neverAtCapacity (cfg : QueueConfig) (throws : Nat → Bool) (s : QueueState) :
    List QEvent → Bool
  | [] => true
  | e :: es =>
    submitOk cfg s e && neverAtCapacity cfg throws (stepEv cfg throws s e).1 es

/-- The two bounds of the queue-state invariant. -/
def QueueBounds (cfg : QueueConfig) (s : QueueState) : Prop :=
  s.running ≤ cfg.maxConcurrent ∧ s.pending.length ≤ cfg.maxQueueSize

/-- No idle capacity with a non-empty backlog. -/
def NoStall (cfg : QueueConfig) (s : QueueState) : Prop :=
  s.running < cfg.maxConcurrent → s.pending = []

instance (cfg : QueueConfig) (s : QueueState) : Decidable (QueueBounds cfg s) := by
  unfold QueueBounds; infer_instance

instance (cfg : QueueConfig) (s : QueueState) : Decidable (NoStall cfg s) := by
  unfold NoStall; infer_instance

/-! ### Process runner: the per-basename running set of `runScript`

`const runningScripts = {};` — a mutable map from script basename to a
boolean flag.  `runScript` rejects immediately when the flag is set,
otherwise sets it, checks the extension, spawns the child and clears the
flag again on `close` or `error`.  `spawned` is the (ghost) list of
basenames of children spawned and not yet closed/errored. -/

/-- Writes `runningScripts[k] = v` on a map modelled as its lookup function. -/
def setFlag (f : String → Bool) (k : String) (v : Bool) : String → Bool :=
  fun x => if x = k then v else f x

structure RunnerState where
  runningScripts : String → Bool
  spawned : List String

/-- State at module load: empty map, no children. -/
def initialRunner : RunnerState := ⟨fun _ => false, []⟩

/-- Errors `runScript` can reject with before spawning. -/
inductive RunErr
  | alreadyRunning
  | unsupportedExtension (ext : String)
deriving DecidableEq, Repr

/-- What the synchronous head of `runScript` did. -/
inductive StartOutcome
  | rejected (e : RunErr)
  | spawned (scriptName : String) (timeout : Nat)
deriving DecidableEq, Repr

/-- The synchronous prefix of `runScript(scriptPath, args, jobId)`:
```
const scriptName = path.basename(scriptPath);
if (runningScripts[scriptName]) { ...; return reject(new Error('Script already running')); }
runningScripts[scriptName] = true;
const ext = path.extname(scriptPath).toLowerCase();
if (ext !== '.py') { runningScripts[scriptName] = false; return reject(...); }
const timeout = TIMEOUTS[scriptName] || 3 * 60 * 1000;
const child = spawn('python', [scriptPath, ...args.map(String)]);
```
-/
def runScriptStart (st : RunnerState) (scriptPath : String) :
    StartOutcome × RunnerState :=
  if st.runningScripts (basename scriptPath) then
    (.rejected .alreadyRunning, st)
  else if lowerCase (extname scriptPath) ≠ ".py" then
    (.rejected (.unsupportedExtension (lowerCase (extname scriptPath))),
     ⟨setFlag (setFlag st.runningScripts (basename scriptPath) true)
        (basename scriptPath) false, st.spawned⟩)
  else
    (.spawned (basename scriptPath) (timeoutFor (basename scriptPath)),
     ⟨setFlag st.runningScripts (basename scriptPath) true,
      st.spawned ++ [basename scriptPath]⟩)

/-- Handler `child.on('close', ...)`: `runningScripts[scriptName] = false` and the
child is gone. -/
def runnerClose (st : RunnerState) (scriptName : String) : RunnerState :=
  ⟨setFlag st.runningScripts scriptName false, st.spawned.erase scriptName⟩

/-- Handler `child.on('error', ...)`: `runningScripts[scriptName] = false` and the
child is gone. -/
def runnerError (st : RunnerState) (scriptName : String) : RunnerState :=
  ⟨setFlag st.runningScripts scriptName false, st.spawned.erase scriptName⟩

/-- Events delivered to the runner: a new `runScript` call, or the `close`
or `error` event of a live child. -/
inductive REvent
  | start (scriptPath : String)
  | childClose (scriptName : String)
  | childError (scriptName : String)
deriving DecidableEq, Repr

/-- One event-loop turn of the runner.  `close`/`error` can only fire for
a child that was actually spawned and is still live. -/
def runnerStep (st : RunnerState) : REvent → RunnerState
  | .start p => (runScriptStart st p).2
  | .childClose n => if n ∈ st.spawned then runnerClose st n else st
  | .childError n => if n ∈ st.spawned then runnerError st n else st

/-- Exclusivity invariant of the running set: no two live children share a
basename, and every live child holds its flag. -/
def RunnerInv (st : RunnerState) : Prop :=
  st.spawned.Nodup ∧ ∀ n ∈ st.spawned, st.runningScripts n = true

/-! ### One invocation of `runScript`: streams, timer, settlement

After a successful spawn, `runScript` installs a kill timer, two data
handlers and the `close`/`error` handlers.  `Invocation` carries the local
state of one such promise executor; output text is modelled as `List Char`
(JS string concatenation / `slice`). -/

/-- The object `runScript` resolves with:
`{ jobId, script: scriptName, exitCode: code, stdout: stdout.slice(0, 20000),
   stderr: stderr.slice(0, 20000) }` (`code` is `null` for a killed child,
hence `Option Int`). -/
structure Result where
  jobId : String
  script : String
  exitCode : Option Int
  stdout : List Char
  stderr : List Char
deriving DecidableEq, Repr

/-- How the `runScript` promise settled. -/
inductive Settled
  | resolved (r : Result)
  | rejected (errMsg : String)
deriving DecidableEq, Repr

structure Invocation where
  jobId : String
  scriptName : String
  timeout : Nat
  stdout : List Char
  stderr : List Char
  timerPending : Bool
  killSent : Bool
  flagHeld : Bool
  outcome : Option Settled
deriving DecidableEq, Repr

/-- The invocation state right after `spawn`: empty buffers, armed kill
timer (`setTimeout(..., timeout)` with `timeout = TIMEOUTS[scriptName] ||
3*60*1000`), running flag held, promise unsettled. -/
def spawnInvocation (jobId scriptName : String) : Invocation :=
  ⟨jobId, scriptName, timeoutFor scriptName, [], [], true, false, true, none⟩

/-- The resolution value built in the `close` handler. -/
def mkResult (inv : Invocation) (code : Option Int) : Result :=
  ⟨inv.jobId, inv.scriptName, code, inv.stdout.take 20000, inv.stderr.take 20000⟩

/-- Events a live child can deliver to its invocation. -/
inductive CEvent
  | dataOut (chunk : List Char)
  | dataErr (chunk : List Char)
  | timerFire
  | close (code : Option Int)
  | spawnError (errMsg : String)
deriving DecidableEq, Repr

/-- The handlers installed by `runScript`:
```
child.stdout.on('data', data => { stdout += data.toString(); });
child.stderr.on('data', data => { stderr += data.toString(); });
const killTimer = setTimeout(() => { child.kill('SIGTERM'); logger.error(...); }, timeout);
child.on('close', code => { clearTimeout(killTimer); runningScripts[scriptName] = false;
                            resolve({ jobId, script, exitCode: code,
                                      stdout: stdout.slice(0, 20000), stderr: stderr.slice(0, 20000) }); });
child.on('error', err => { clearTimeout(killTimer); runningScripts[scriptName] = false; reject(err); });
```
Stream/exit events only arrive while the promise is unsettled; the timer
fires at most once and only while armed. -/
def childStep (inv : Invocation) : CEvent → Invocation
  | .dataOut c =>
    if inv.outcome = none then { inv with stdout := inv.stdout ++ c } else inv
  | .dataErr c =>
    if inv.outcome = none then { inv with stderr := inv.stderr ++ c } else inv
  | .timerFire =>
    if inv.timerPending then { inv with timerPending := false, killSent := true } else inv
  | .close code =>
    if inv.outcome = none then
      { inv with timerPending := false, flagHeld := false,
                 outcome := some (.resolved (mkResult inv code)) }
    else inv
  | .spawnError m =>
    if inv.outcome = none then
      { inv with timerPending := false, flagHeld := false,
                 outcome := some (.rejected m) }
    else inv

/-! ### Helper lemmas about the queue pump -/

/-- One `processQueue` call moves at most the head of `pending` to the end
of the start trace: the concatenation `startedTrace ++ pending` is
unchanged. -/
lemma processQueue_trace (cfg : QueueConfig) (t : Nat → Bool) (s : QueueState) :
    (processQueue cfg t s).1.startedTrace ++ (processQueue cfg t s).1.pending
      = s.startedTrace ++ s.pending := by
  unfold processQueue
  split
  · rfl
  · split
    · rfl
    · split <;> simp_all

/-- When no job function raises synchronously, no exception escapes
`processQueue`. -/
lemma processQueue_noThrow (cfg : QueueConfig) (t : Nat → Bool) (s : QueueState)
    (ht : ∀ x, t x = false) : (processQueue cfg t s).2 = false := by
  unfold processQueue
  split
  · rfl
  · split
    · rfl
    · split <;> simp_all

/-- A drain step preserves both queue bounds. -/
lemma processQueue_bounds (cfg : QueueConfig) (t : Nat → Bool) (s : QueueState)
    (h : QueueBounds cfg s) : QueueBounds cfg (processQueue cfg t s).1 := by
  obtain ⟨h1, h2⟩ := h
  unfold processQueue
  split
  · exact ⟨h1, h2⟩
  · split
    · exact ⟨h1, h2⟩
    · split <;> refine ⟨?_, ?_⟩ <;> simp_all [QueueBounds] <;> omega

open QEvent in
/-- C1: at every instant `running ≤ MAX_CONCURRENT` (shipped value 1) and
`pending.length ≤ MAX_QUEUE_SIZE` (shipped value 20): both bounds hold in
the initial state and are preserved by every operation of the admission
queue — a bare drain step (`processQueue`), a submission (`enqueue`
followed by its drain), and a completion (the `.finally` handler followed
by its drain) — for any job behaviours, including synchronously-throwing
job functions. -/
theorem queue_bounds_invariant :
    MAX_CONCURRENT = 1 ∧ MAX_QUEUE_SIZE = 20 ∧
    defaultConfig = ⟨1, 20⟩ ∧
    (∀ cfg : QueueConfig, QueueBounds cfg initialQueue) ∧
    (∀ cfg t s, QueueBounds cfg s → QueueBounds cfg (processQueue cfg t s).1) ∧
    (∀ cfg t j s, QueueBounds cfg s → QueueBounds cfg (enqueue cfg t j s).2) ∧
    (∀ cfg t s e, QueueBounds cfg s → QueueBounds cfg (stepEv cfg t s e).1) := by
  refine ⟨rfl, rfl, rfl, ?_, processQueue_bounds, ?_, ?_⟩
  · intro cfg; exact ⟨Nat.zero_le _, Nat.zero_le _⟩
  · intro cfg t j s h
    obtain ⟨h1, h2⟩ := h
    unfold enqueue
    split
    · exact ⟨h1, h2⟩
    · next hlen =>
      refine processQueue_bounds cfg t _ ⟨h1, ?_⟩
      simp only [List.length_append, List.length_cons, List.length_nil]
      omega
  · intro cfg t s e h
    match e with
    | .submit j =>
      obtain ⟨h1, h2⟩ := h
      show QueueBounds cfg (enqueue cfg t j s).2
      unfold enqueue
      split
      · exact ⟨h1, h2⟩
      · next hlen =>
        refine processQueue_bounds cfg t _ ⟨h1, ?_⟩
        simp only [List.length_append, List.length_cons, List.length_nil]
        omega
    | .complete j ok =>
      obtain ⟨h1, h2⟩ := h
      show QueueBounds cfg (if j ∈ s.executing then completeJob cfg t j ok s else (s, false)).1
      split
      · exact processQueue_bounds cfg t _
          ⟨by show s.running - 1 ≤ cfg.maxConcurrent; omega, h2⟩
      · exact ⟨h1, h2⟩

/-- Closed instance of `queue_bounds_invariant`: a completion step from a
concrete in-bounds state stays in bounds. -/
theorem queue_bounds_invariant_witness :
    QueueBounds ⟨1, 20⟩
      (stepEv ⟨1, 20⟩ (fun _ => false) ⟨1, [3], [2], [2]⟩ (.complete 2 true)).1 :=
  queue_bounds_invariant.2.2.2.2.2.2 ⟨1, 20⟩ (fun _ => false) ⟨1, [3], [2], [2]⟩
    (.complete 2 true) (by decide)

/-- C3: `enqueue` at capacity returns `false` with no side effect;
below capacity it appends the unit (which the triggered drain may then
immediately start) and returns `true`.  The concrete scenario with
`MAX_CONCURRENT = 1, MAX_QUEUE_SIZE = 2`: three back-to-back submissions
are all accepted — the first starts at once, the next two pend — and a
fourth is rejected with `false`. -/
theorem enqueue_admission :
    (∀ cfg t j s, s.pending.length = cfg.maxQueueSize →
        enqueue cfg t j s = (.ok false, s)) ∧
    (∀ cfg t j s, s.pending.length < cfg.maxQueueSize → (∀ x, t x = false) →
        (enqueue cfg t j s).1 = .ok true ∧
        (enqueue cfg t j s).2.startedTrace ++ (enqueue cfg t j s).2.pending
          = s.startedTrace ++ s.pending ++ [j]) ∧
    (let t : Nat → Bool := fun _ => false
     let cfg : QueueConfig := ⟨1, 2⟩
     let e1 := enqueue cfg t 0 initialQueue
     let e2 := enqueue cfg t 1 e1.2
     let e3 := enqueue cfg t 2 e2.2
     let e4 := enqueue cfg t 3 e3.2
     e1.1 = .ok true ∧ e2.1 = .ok true ∧ e3.1 = .ok true ∧
     e3.2 = ⟨1, [1, 2], [0], [0]⟩ ∧ e4 = (.ok false, e3.2)) := by
  refine ⟨?_, ?_, rfl, rfl, rfl, rfl, rfl⟩
  · intro cfg t j s hlen
    unfold enqueue
    split
    · rfl
    · omega
  · intro cfg t j s hlen ht
    unfold enqueue
    split
    · omega
    · constructor
      · simp [processQueue_noThrow cfg t _ ht]
      · simpa using processQueue_trace cfg t ⟨s.running, s.pending ++ [j], s.executing, s.startedTrace⟩

/-- Closed instance of `enqueue_admission`: a full queue (length 20, the
shipped `MAX_QUEUE_SIZE`) rejects a submission unchanged, and a one-slot
queue accepts one. -/
theorem enqueue_admission_witness :
    enqueue ⟨1, 20⟩ (fun _ => false) 99
        ⟨1, [1, 2, 3, 4, 5, 6, 7, 8, 9, 10, 11, 12, 13, 14, 15, 16, 17, 18, 19, 20], [0], [0]⟩
      = (.ok false,
        ⟨1, [1, 2, 3, 4, 5, 6, 7, 8, 9, 10, 11, 12, 13, 14, 15, 16, 17, 18, 19, 20], [0], [0]⟩) ∧
    (enqueue ⟨1, 20⟩ (fun _ => false) 99 ⟨1, [1], [0], [0]⟩).1 = .ok true :=
  ⟨enqueue_admission.1 ⟨1, 20⟩ (fun _ => false) 99 _ (by decide),
   (enqueue_admission.2.1 ⟨1, 20⟩ (fun _ => false) 99 ⟨1, [1], [0], [0]⟩ (by decide)
      (fun _ => rfl)).1⟩

/-- After a drain step from a state with at most one pending unit per free
slot margin, there is no idle capacity with a non-empty backlog. -/
lemma noStall_processQueue (cfg : QueueConfig) (t : Nat → Bool) (s : QueueState)
    (h : s.running + 1 < cfg.maxConcurrent → s.pending.length ≤ 1) :
    NoStall cfg (processQueue cfg t s).1 := by
  unfold processQueue
  split
  · next hge =>
    show NoStall cfg s
    intro hlt; omega
  · next hge =>
    split
    · next hemp =>
      show NoStall cfg s
      intro _; exact hemp
    · next j rest heq =>
      split
      · show NoStall cfg ⟨s.running + 1, rest, s.executing, s.startedTrace ++ [j]⟩
        intro hlt
        have hlt2 : s.running + 1 < cfg.maxConcurrent := hlt
        have hlen := h hlt2
        rw [heq] at hlen
        simp only [List.length_cons] at hlen
        have hr : rest = [] := List.eq_nil_of_length_eq_zero (by omega)
        exact hr
      · show NoStall cfg ⟨s.running + 1, rest, s.executing ++ [j], s.startedTrace ++ [j]⟩
        intro hlt
        have hlt2 : s.running + 1 < cfg.maxConcurrent := hlt
        have hlen := h hlt2
        rw [heq] at hlen
        simp only [List.length_cons] at hlen
        have hr : rest = [] := List.eq_nil_of_length_eq_zero (by omega)
        exact hr

/-- C5: a settling unit always runs the same `.finally` handler whether
its promise fulfilled or rejected, so completion surfaces nothing upward
(when job functions do not raise synchronously, no exception escapes a
completion turn), and a completion step preserves the no-stall property:
never idle capacity (`running < maxConcurrent`) with a non-empty pending
queue. -/
theorem completion_pump_no_stall :
    (∀ cfg t j ok s,
        stepEv cfg t s (.complete j ok) = stepEv cfg t s (.complete j true)) ∧
    (∀ cfg t j ok s, (∀ x, t x = false) →
        (stepEv cfg t s (.complete j ok)).2 = false) ∧
    (∀ cfg t j ok s, NoStall cfg s → NoStall cfg (stepEv cfg t s (.complete j ok)).1) := by
  refine ⟨fun _ _ _ _ _ => rfl, ?_, ?_⟩
  · intro cfg t j ok s ht
    show (if j ∈ s.executing then completeJob cfg t j ok s else (s, false)).2 = false
    split
    · exact processQueue_noThrow cfg t _ ht
    · rfl
  · intro cfg t j ok s h
    show NoStall cfg (if j ∈ s.executing then completeJob cfg t j ok s else (s, false)).1
    split
    · refine noStall_processQueue cfg t ⟨s.running - 1, s.pending,
        s.executing.erase j, s.startedTrace⟩ ?_
      intro hlt
      have hlt2 : s.running - 1 + 1 < cfg.maxConcurrent := hlt
      have hr : s.running < cfg.maxConcurrent := by omega
      show s.pending.length ≤ 1
      rw [h hr]
      simp
    · exact h

/-- Closed instance of `completion_pump_no_stall`: completing the running
unit of a concrete single-slot queue with a failing promise immediately
starts the pending head, raises nothing, and leaves no idle capacity with
backlog. -/
theorem completion_pump_no_stall_witness :
    (stepEv ⟨1, 20⟩ (fun _ => false) ⟨1, [5], [4], [4]⟩ (.complete 4 false)).2 = false ∧
    NoStall ⟨1, 20⟩
      (stepEv ⟨1, 20⟩ (fun _ => false) ⟨1, [5], [4], [4]⟩ (.complete 4 false)).1 :=
  ⟨completion_pump_no_stall.2.1 ⟨1, 20⟩ (fun _ => false) 4 false ⟨1, [5], [4], [4]⟩
      (fun _ => rfl),
   completion_pump_no_stall.2.2 ⟨1, 20⟩ (fun _ => false) 4 false ⟨1, [5], [4], [4]⟩
      (by decide)⟩

/-- Along any trace whose submissions all find the queue below capacity,
`startedTrace ++ pending` accumulates exactly the submitted identifiers. -/
lemma runTrace_concat (cfg : QueueConfig) (t : Nat → Bool) :
    ∀ (tr : List QEvent) (s : QueueState), neverAtCapacity cfg t s tr = true →
      (runTrace cfg t s tr).startedTrace ++ (runTrace cfg t s tr).pending
        = s.startedTrace ++ s.pending ++ submittedIds tr := by
  intro tr
  induction tr with
  | nil => intro s _; simp [runTrace, submittedIds]
  | cons e es ih =>
    intro s h
    rw [show neverAtCapacity cfg t s (e :: es)
        = (submitOk cfg s e && neverAtCapacity cfg t (stepEv cfg t s e).1 es) from rfl,
      Bool.and_eq_true] at h
    obtain ⟨hhead, htail⟩ := h
    have hstep :
        (stepEv cfg t s e).1.startedTrace ++ (stepEv cfg t s e).1.pending
          = s.startedTrace ++ s.pending ++ submittedIds [e] := by
      match e with
      | .submit j =>
        simp only [submitOk, decide_eq_true_eq] at hhead
        show (enqueue cfg t j s).2.startedTrace ++ (enqueue cfg t j s).2.pending = _
        unfold enqueue
        split
        · omega
        · have := processQueue_trace cfg t
            ⟨s.running, s.pending ++ [j], s.executing, s.startedTrace⟩
          simpa [submittedIds, List.append_assoc] using this
      | .complete j ok =>
        show (if j ∈ s.executing then completeJob cfg t j ok s else (s, false)).1.startedTrace
            ++ (if j ∈ s.executing then completeJob cfg t j ok s else (s, false)).1.pending
          = s.startedTrace ++ s.pending ++ submittedIds [QEvent.complete j ok]
        split
        · have := processQueue_trace cfg t
            ⟨s.running - 1, s.pending, s.executing.erase j, s.startedTrace⟩
          simpa [submittedIds] using this
        · simp [submittedIds]
    rw [runTrace, ih _ htail, hstep]
    cases e <;> simp [submittedIds, List.append_assoc]

/-- C4: for every event trace in which each submission finds the pending
queue below capacity, the units invoked so far (in invocation order)
followed by the still-pending units are exactly the submitted units in
submission order: every accepted unit is dequeued from the head exactly
once and execution starts follow submission order, with no reordering and
no duplication. -/
theorem fifo_start_order :
    ∀ (cfg : QueueConfig) (t : Nat → Bool) (tr : List QEvent),
      neverAtCapacity cfg t initialQueue tr = true →
      (runTrace cfg t initialQueue tr).startedTrace
          ++ (runTrace cfg t initialQueue tr).pending = submittedIds tr ∧
      ∀ j, ((runTrace cfg t initialQueue tr).startedTrace).count j
            + ((runTrace cfg t initialQueue tr).pending).count j
          = (submittedIds tr).count j := by
  intro cfg t tr h
  have hmain : (runTrace cfg t initialQueue tr).startedTrace
      ++ (runTrace cfg t initialQueue tr).pending = submittedIds tr :=
    runTrace_concat cfg t tr initialQueue h
  refine ⟨hmain, fun j => ?_⟩
  rw [← hmain, List.count_append]

/-- Closed instance of `fifo_start_order`: a four-event trace on a
single-slot queue of capacity 3 starts units 10 then 11 in submission
order and leaves 12 pending. -/
theorem fifo_start_order_witness :
    neverAtCapacity ⟨1, 3⟩ (fun _ => false) initialQueue
        [.submit 10, .submit 11, .complete 10 true, .submit 12] = true ∧
    (runTrace ⟨1, 3⟩ (fun _ => false) initialQueue
        [.submit 10, .submit 11, .complete 10 true, .submit 12]).startedTrace
      ++ (runTrace ⟨1, 3⟩ (fun _ => false) initialQueue
        [.submit 10, .submit 11, .complete 10 true, .submit 12]).pending
      = [10, 11, 12] :=
  ⟨by decide,
   (fifo_start_order ⟨1, 3⟩ (fun _ => false)
      [.submit 10, .submit 11, .complete 10 true, .submit 12] (by decide)).1⟩

/-- C10: a unit of work whose job function raises synchronously is dequeued
with `running` already incremented but the `.finally` handler is never
attached: the exception escapes `processQueue` and hence `enqueue` (which
never reaches `return true`), and the slot is never reclaimed — the gap
between `running` and the live units can never shrink, so each
such unit permanently reduces the queue's effective capacity by one. -/
theorem sync_throw_leaks_slot :
    (∀ cfg t (s : QueueState) j rest, s.running < cfg.maxConcurrent →
        s.pending = j :: rest → t j = true →
        processQueue cfg t s
          = (⟨s.running + 1, rest, s.executing, s.startedTrace ++ [j]⟩, true)) ∧
    (∀ cfg t (s : QueueState) j, s.running < cfg.maxConcurrent →
        s.pending = [] → s.pending.length < cfg.maxQueueSize → t j = true →
        enqueue cfg t j s
          = (.error (), ⟨s.running + 1, [], s.executing, s.startedTrace ++ [j]⟩)) ∧
    (∀ cfg t (s : QueueState) e k, s.executing.length + k ≤ s.running →
        (stepEv cfg t s e).1.executing.length + k ≤ (stepEv cfg t s e).1.running) := by
  refine ⟨?_, ?_, ?_⟩
  · intro cfg t s j rest hrun hpend ht
    unfold processQueue
    rw [hpend]
    split
    · omega
    · simp [ht]
  · intro cfg t s j hrun hpend hlen ht
    unfold enqueue
    split
    · omega
    · have hp : processQueue cfg t ⟨s.running, s.pending ++ [j], s.executing, s.startedTrace⟩
          = (⟨s.running + 1, [], s.executing, s.startedTrace ++ [j]⟩, true) := by
        unfold processQueue
        rw [hpend]
        split
        · next hge => exact absurd hrun (by simpa using hge)
        · simp [ht]
      rw [hp]
      rfl
  · intro cfg t s e k h
    have hpq : ∀ s0 : QueueState, s0.executing.length + k ≤ s0.running →
        (processQueue cfg t s0).1.executing.length + k ≤ (processQueue cfg t s0).1.running := by
      intro s0 h0
      unfold processQueue
      split
      · exact h0
      · split
        · exact h0
        · split
          · show s0.executing.length + k ≤ s0.running + 1
            omega
          · show (s0.executing ++ [_]).length + k ≤ s0.running + 1
            simp only [List.length_append, List.length_cons, List.length_nil]
            omega
    match e with
    | .submit j =>
      show (enqueue cfg t j s).2.executing.length + k ≤ (enqueue cfg t j s).2.running
      unfold enqueue
      split
      · exact h
      · exact hpq ⟨s.running, s.pending ++ [j], s.executing, s.startedTrace⟩ h
    | .complete j ok =>
      show (if j ∈ s.executing then completeJob cfg t j ok s else (s, false)).1.executing.length
          + k ≤ (if j ∈ s.executing then completeJob cfg t j ok s else (s, false)).1.running
      split
      · next hmem =>
        refine hpq ⟨s.running - 1, s.pending, s.executing.erase j, s.startedTrace⟩ ?_
        show (s.executing.erase j).length + k ≤ s.running - 1
        rw [List.length_erase_of_mem hmem]
        have hpos : 1 ≤ s.executing.length := List.length_pos_of_mem hmem
        omega
      · exact h

/-- Closed instance of `sync_throw_leaks_slot`: submitting the throwing
unit 7 to the empty single-slot queue raises out of `enqueue`, leaves
`running = 1` with nothing executing, and the deficit persists across a
further (ineffective) completion event. -/
theorem sync_throw_leaks_slot_witness :
    enqueue ⟨1, 20⟩ (fun x => x = 7) 7 initialQueue
      = (.error (), ⟨1, [], [], [7]⟩) ∧
    (stepEv ⟨1, 20⟩ (fun x => x = 7) ⟨1, [], [], [7]⟩ (.complete 7 true)).1.executing.length + 1
      ≤ (stepEv ⟨1, 20⟩ (fun x => x = 7) ⟨1, [], [], [7]⟩ (.complete 7 true)).1.running :=
  ⟨sync_throw_leaks_slot.2.1 ⟨1, 20⟩ (fun x => x = 7) initialQueue 7
      (by decide) rfl (by decide) (by decide),
   sync_throw_leaks_slot.2.2 ⟨1, 20⟩ (fun x => x = 7) ⟨1, [], [], [7]⟩
      (.complete 7 true) 1 (by decide)⟩

/-! ### Theorems about the process runner -/

/-- C2: per-program exclusivity.  A `runScript` call whose basename is
already flagged running rejects with the already-running error and touches
nothing (in particular it spawns nothing); and every runner event
preserves the exclusivity invariant — no two live children share a
basename — independently of the global concurrency limit. -/
theorem script_exclusivity :
    (∀ st p, st.runningScripts (basename p) = true →
        runScriptStart st p = (.rejected .alreadyRunning, st)) ∧
    RunnerInv initialRunner ∧
    (∀ st e, RunnerInv st → RunnerInv (runnerStep st e)) := by
  refine ⟨?_, ⟨List.nodup_nil, fun n hn => absurd hn (List.not_mem_nil n)⟩, ?_⟩
  · intro st p hflag
    unfold runScriptStart
    rw [if_pos hflag]
  · intro st e hinv
    obtain ⟨hnd, hflags⟩ := hinv
    match e with
    | .start p =>
      show RunnerInv (runScriptStart st p).2
      unfold runScriptStart
      by_cases hflag : st.runningScripts (basename p) = true
      · rw [if_pos hflag]
        exact ⟨hnd, hflags⟩
      · rw [if_neg hflag]
        have hnotin : basename p ∉ st.spawned := fun hmem => hflag (hflags _ hmem)
        split
        · refine ⟨hnd, fun n hn => ?_⟩
          have hne : n ≠ basename p := fun he => hnotin (he ▸ hn)
          show (if n = basename p then false else
            if n = basename p then true else st.runningScripts n) = true
          rw [if_neg hne, if_neg hne]
          exact hflags n hn
        · refine ⟨?_, ?_⟩
          · show (st.spawned ++ [basename p]).Nodup
            rw [List.nodup_append]
            refine ⟨hnd, List.nodup_singleton _, ?_⟩
            intro a ha hb
            simp only [List.mem_singleton] at hb
            exact hnotin (hb ▸ ha)
          · intro n hn
            show (if n = basename p then true else st.runningScripts n) = true
            have hn2 : n ∈ st.spawned ++ [basename p] := hn
            rcases List.mem_append.1 hn2 with hn3 | hn3
            · have hne : n ≠ basename p := fun he => hnotin (he ▸ hn3)
              rw [if_neg hne]
              exact hflags n hn3
            · simp only [List.mem_singleton] at hn3
              rw [if_pos hn3]
    | .childClose n =>
      show RunnerInv (if n ∈ st.spawned then runnerClose st n else st)
      split
      · refine ⟨hnd.erase n, fun m hm => ?_⟩
        have hm2 := (hnd.mem_erase_iff).1 hm
        show (if m = n then false else st.runningScripts m) = true
        rw [if_neg hm2.1]
        exact hflags m hm2.2
      · exact ⟨hnd, hflags⟩
    | .childError n =>
      show RunnerInv (if n ∈ st.spawned then runnerError st n else st)
      split
      · refine ⟨hnd.erase n, fun m hm => ?_⟩
        have hm2 := (hnd.mem_erase_iff).1 hm
        show (if m = n then false else st.runningScripts m) = true
        rw [if_neg hm2.1]
        exact hflags m hm2.2
      · exact ⟨hnd, hflags⟩

/-- Closed instance of `script_exclusivity`: a second `runScript` for
`airliquide.py` (under a different directory) while the first is live is
rejected without touching the runner state, and spawning preserves the
invariant from the initial state. -/
theorem script_exclusivity_witness :
    runScriptStart (runScriptStart initialRunner "/srv/a/airliquide.py").2
        "/other/dir/airliquide.py"
      = (.rejected .alreadyRunning, (runScriptStart initialRunner "/srv/a/airliquide.py").2) ∧
    RunnerInv (runnerStep initialRunner (.start "/srv/a/airliquide.py")) :=
  ⟨script_exclusivity.1 (runScriptStart initialRunner "/srv/a/airliquide.py").2
      "/other/dir/airliquide.py" (by decide),
   script_exclusivity.2.2 initialRunner (.start "/srv/a/airliquide.py")
      script_exclusivity.2.1⟩

/-! ### Theorems about one invocation -/

/-- C6: the kill timer is keyed by the program's basename through the
per-program table — 3 minutes (180000 ms) for `airliquide.py` and
`nipongases.py`, 1 minute (60000 ms) for `airliquide_portugal.py`, 3
minutes for any basename without an entry — and when the timer fires
before the child exits, a termination signal is sent and the subsequent
`close` still resolves the invocation with a `Result` carrying whatever
exit code the forced termination produced: a timeout never rejects. -/
theorem timeout_resolution :
    timeoutFor "airliquide.py" = 180000 ∧
    timeoutFor "nipongases.py" = 180000 ∧
    timeoutFor "airliquide_portugal.py" = 60000 ∧
    (∀ n, TIMEOUTS n = none → timeoutFor n = 180000) ∧
    (∀ jobId n, (spawnInvocation jobId n).timeout = timeoutFor n) ∧
    (∀ inv : Invocation, inv.outcome = none → inv.timerPending = true →
        (childStep inv .timerFire).killSent = true ∧
        ∀ code, (childStep (childStep inv .timerFire) (.close code)).outcome
          = some (.resolved (mkResult inv code))) := by
  refine ⟨rfl, rfl, rfl, ?_, fun _ _ => rfl, ?_⟩
  · intro n hn
    unfold timeoutFor
    rw [hn]
  · intro inv hout htimer
    constructor
    · simp [childStep, htimer]
    · intro code
      simp [childStep, htimer, hout, mkResult]

/-- Closed instance of `timeout_resolution`: a timed-out run of
`slow.py` (no table entry, hence the 3-minute default) is killed and the
forced exit resolves with exit code null. -/
theorem timeout_resolution_witness :
    timeoutFor "slow.py" = 180000 ∧
    (childStep (spawnInvocation "j1" "slow.py") .timerFire).killSent = true ∧
    (childStep (childStep (spawnInvocation "j1" "slow.py") .timerFire) (.close none)).outcome
      = some (.resolved (mkResult (spawnInvocation "j1" "slow.py") none)) :=
  ⟨timeout_resolution.2.2.2.1 "slow.py" (by decide),
   (timeout_resolution.2.2.2.2.2 (spawnInvocation "j1" "slow.py") rfl rfl).1,
   (timeout_resolution.2.2.2.2.2 (spawnInvocation "j1" "slow.py") rfl rfl).2 none⟩

/-- C7: every resolving invocation resolves with the `close`-handler
`Result`, whose stdout and stderr never exceed 20000 characters however
much the child produced, and which carries the job identifier, program
basename and exit code unmodified. -/
theorem result_output_cap :
    ∀ (inv : Invocation) (code : Option Int), inv.outcome = none →
      (childStep inv (.close code)).outcome = some (.resolved (mkResult inv code)) ∧
      (mkResult inv code).stdout.length ≤ 20000 ∧
      (mkResult inv code).stderr.length ≤ 20000 ∧
      (mkResult inv code).jobId = inv.jobId ∧
      (mkResult inv code).script = inv.scriptName ∧
      (mkResult inv code).exitCode = code := by
  intro inv code hout
  refine ⟨?_, ?_, ?_, rfl, rfl, rfl⟩
  · simp [childStep, hout]
  · show (inv.stdout.take 20000).length ≤ 20000
    rw [List.length_take]
    exact min_le_left _ _
  · show (inv.stderr.take 20000).length ≤ 20000
    rw [List.length_take]
    exact min_le_left _ _

/-- Closed instance of `result_output_cap`: closing a fresh invocation of
`airliquide.py` that produced a 25000-character stdout yields a Result
capped at 20000 with the metadata intact. -/
theorem result_output_cap_witness :
    (mkResult (childStep (spawnInvocation "job9" "airliquide.py")
        (.dataOut (List.replicate 25000 'x'))) (some 0)).stdout.length ≤ 20000 ∧
    (mkResult (childStep (spawnInvocation "job9" "airliquide.py")
        (.dataOut (List.replicate 25000 'x'))) (some 0)).exitCode = some 0 :=
  ⟨(result_output_cap (childStep (spawnInvocation "job9" "airliquide.py")
      (.dataOut (List.replicate 25000 'x'))) (some 0) rfl).2.1,
   (result_output_cap (childStep (spawnInvocation "job9" "airliquide.py")
      (.dataOut (List.replicate 25000 'x'))) (some 0) rfl).2.2.2.2.2⟩

/-- The claim that the streaming buffers are capped while the child runs
is false at a concrete input: a single 20001-character stdout chunk is
buffered in full, so during execution the buffer exceeds the 20000 cap. -/
theorem buffer_cap_counterexample :
    20000 < ((childStep (spawnInvocation "job1" "airliquide.py")
        (.dataOut (List.replicate 20001 'a'))).stdout).length := by
  have h : (childStep (spawnInvocation "job1" "airliquide.py")
      (.dataOut (List.replicate 20001 'a'))).stdout = List.replicate 20001 'a' := rfl
  rw [h, List.length_replicate]
  norm_num

/-- C8 (amended): the data handlers append each arriving chunk in full —
the in-flight buffers are unbounded, `stdout += data.toString()` — and the
20000-character cap is applied only when the `Result` is built in the
`close` handler, so the cap holds of every resolved `Result`, not of the
buffers during execution. -/
theorem buffer_accumulation_uncapped :
    (∀ (inv : Invocation) (c : List Char), inv.outcome = none →
        (childStep inv (.dataOut c)).stdout = inv.stdout ++ c ∧
        (childStep inv (.dataErr c)).stderr = inv.stderr ++ c) ∧
    (∀ (inv : Invocation) (code : Option Int),
        (mkResult inv code).stdout = inv.stdout.take 20000 ∧
        (mkResult inv code).stderr = inv.stderr.take 20000 ∧
        (mkResult inv code).stdout.length ≤ 20000 ∧
        (mkResult inv code).stderr.length ≤ 20000) := by
  refine ⟨?_, ?_⟩
  · intro inv c hout
    constructor
    · simp [childStep, hout]
    · simp [childStep, hout]
  · intro inv code
    refine ⟨rfl, rfl, ?_, ?_⟩
    · show (inv.stdout.take 20000).length ≤ 20000
      rw [List.length_take]
      exact min_le_left _ _
    · show (inv.stderr.take 20000).length ≤ 20000
      rw [List.length_take]
      exact min_le_left _ _

/-- Closed instance of `buffer_accumulation_uncapped`: a fresh invocation
buffers a 20001-character chunk in full while the resolved Result of any
invocation is capped. -/
theorem buffer_accumulation_uncapped_witness :
    (childStep (spawnInvocation "job2" "nipongases.py")
        (.dataOut (List.replicate 20001 'b'))).stdout
      = (spawnInvocation "job2" "nipongases.py").stdout ++ List.replicate 20001 'b' ∧
    (mkResult (spawnInvocation "job2" "nipongases.py") (some 1)).stdout.length ≤ 20000 :=
  ⟨(buffer_accumulation_uncapped.1 (spawnInvocation "job2" "nipongases.py")
      (List.replicate 20001 'b') rfl).1,
   (buffer_accumulation_uncapped.2 (spawnInvocation "job2" "nipongases.py")
      (some 1)).2.2.1⟩

/-- C9: a spawn error clears the running flag, cancels the kill timer and
rejects with the underlying error — the invocation does not resolve with a
`Result` — and at the runner level the basename's flag is down afterwards,
so a subsequent `runScript` of the same basename is not rejected as
already running. -/
theorem spawn_failure_release :
    (∀ (inv : Invocation) (m : String), inv.outcome = none →
        childStep inv (.spawnError m)
          = { inv with timerPending := false, flagHeld := false,
                       outcome := some (.rejected m) }) ∧
    (∀ st n, n ∈ st.spawned →
        (runnerStep st (.childError n)).runningScripts n = false) ∧
    (∀ st p, st.runningScripts (basename p) = false →
        ∀ st2, (runScriptStart st p).1 ≠ .rejected .alreadyRunning ∧
          (runScriptStart st p ≠ (.rejected .alreadyRunning, st2))) := by
  refine ⟨?_, ?_, ?_⟩
  · intro inv m hout
    simp [childStep, hout]
  · intro st n hmem
    show (if n ∈ st.spawned then runnerError st n else st).runningScripts n = false
    rw [if_pos hmem]
    show (if n = n then false else st.runningScripts n) = false
    rw [if_pos rfl]
  · intro st p hflag st2
    have hneg : ¬ (st.runningScripts (basename p) = true) := by
      rw [hflag]
      exact Bool.false_ne_true
    have h1 : (runScriptStart st p).1 ≠ .rejected .alreadyRunning := by
      unfold runScriptStart
      rw [if_neg hneg]
      split
      · intro hcon
        simp at hcon
      · intro hcon
        simp at hcon
    exact ⟨h1, fun hcon => h1 (by rw [hcon])⟩

/-- Closed instance of `spawn_failure_release`: a spawn error on a fresh
`airliquide.py` invocation rejects with the error message and releases the
flag; afterwards the runner accepts a new start of the same basename. -/
theorem spawn_failure_release_witness :
    childStep (spawnInvocation "job3" "airliquide.py") (.spawnError "ENOENT")
      = { spawnInvocation "job3" "airliquide.py" with
            timerPending := false, flagHeld := false,
            outcome := some (.rejected "ENOENT") } ∧
    (runnerStep (runnerStep initialRunner (.start "/x/airliquide.py"))
        (.childError "airliquide.py")).runningScripts "airliquide.py" = false ∧
    (runScriptStart
        (runnerStep (runnerStep initialRunner (.start "/x/airliquide.py"))
          (.childError "airliquide.py")) "/x/airliquide.py").1
      ≠ .rejected .alreadyRunning :=
  ⟨spawn_failure_release.1 (spawnInvocation "job3" "airliquide.py") "ENOENT" rfl,
   spawn_failure_release.2.1 (runnerStep initialRunner (.start "/x/airliquide.py"))
      "airliquide.py" (by decide),
   ((spawn_failure_release.2.2
      (runnerStep (runnerStep initialRunner (.start "/x/airliquide.py"))
        (.childError "airliquide.py")) "/x/airliquide.py" (by decide)) initialRunner).1⟩

end MonitorServer
